import Mathlib

/-!
Verification development for the TroopOneCalendar repository
(`src/troop_calendar_sync.py`).

The Python program scrapes an events listing, parses each event detail
page for a date, an optional 12-hour time, and a location, and emits an
iCalendar document.  We give a shallow embedding of the logic-bearing
parts:

* `addHref` / `extractLinks` embed `extract_event_links_from_form_list`
  (lines 44-107).  BeautifulSoup's HTML parsing is not logic of this
  repository, so a listing page is modelled by the data the three passes
  consume: the anchors (`href`, `onclick`, visible text), the elements
  carrying an `onclick` attribute, and the raw HTML string scanned by the
  full-document regex pass.
* `parseDetail` embeds the per-detail-page block of `main`
  (lines 286-350): the date regex over the flattened text, the
  `dateutil` month-first parse (`dtparser.parse(..., dayfirst=False,
  yearfirst=False)` modelled from `dateutil/parser/_parser.py`:
  `resolve_ymd`, `convertyear`, `_ampm_valid`, `_adjust_ampm`, plus the
  range checks of `datetime`'s constructor), the parenthesized title
  fallback, the time token, the `Location:` regex and the summary strip.
  Local wall-clock datetimes are represented as minutes since
  0000-03-01; `timedelta(days=1)` is `+ 1440`, `timedelta(hours=2)` is
  `+ 120`, exactly as Python's exact calendar arithmetic under the fixed
  (DST-free) `LOCAL_TZ` offset.  The uncaught `ValueError` that
  `datetime(year, int(mm), int(dd))` can raise on an out-of-range title
  date is modelled by `Except.error ()`.
* `buildIcs` embeds `build_ics` (lines 111-173) including a full SHA-1
  implementation for the UID content hash; `datetime.now` is a string
  parameter `nowUtc`.

All regular-expression searches (`re.search` / `re.finditer` /
`re.sub`) are implemented with Python's leftmost-match, greedy /
lazy backtracking semantics for the concrete patterns appearing in the
source.
-/

/-- ASCII decimal digit test, as used by the `\d` character class. -/
def isDigitCh (c : Char) : Bool := '0' ≤ c && c ≤ '9'

/-- Whitespace class of Python's `\s` / `str.strip` / `str.split`
(ASCII part: space, tab, newline, carriage return, vertical tab,
form feed). -/
def isSpaceCh (c : Char) : Bool :=
  c == ' ' || c == '\t' || c == '\n' || c == '\r' || c == '\x0b' || c == '\x0c'

/-- Lower-case an ASCII letter, for the case-insensitive (`re.I`)
matching of ASCII patterns. -/
def lowerCh (c : Char) : Char :=
  if 'A' ≤ c && c ≤ 'Z' then Char.ofNat (c.toNat + 32) else c

/-- Numeric value of an ASCII digit. -/
def digitVal (c : Char) : Nat := c.toNat - 48

/-- Value of a decimal digit string, Python's `int(...)` on a digit
token (leading zeros allowed). -/
def digitsVal (l : List Char) : Nat :=
  List.foldl (fun a c => a * 10 + digitVal c) 0 l

/-- Python `str.strip()`: drop leading and trailing whitespace. -/
def trimWS (l : List Char) : List Char :=
  ((l.dropWhile isSpaceCh).reverse.dropWhile isSpaceCh).reverse

/-- Build a `String` back from a character list. -/
def strOf (l : List Char) : String := String.mk l

/-- Python `s in t` substring test. -/
def containsSub (sub : List Char) : List Char → Bool
  | [] => sub.isEmpty
  | c :: rest => sub.isPrefixOf (c :: rest) || containsSub sub rest

/-- Split on whitespace runs, dropping empty pieces: Python `str.split()`.
`cur` holds the current piece in reverse. -/
def splitWSGo (cur : List Char) : List Char → List (List Char)
  | [] => if cur.isEmpty then [] else [cur.reverse]
  | c :: rest =>
    if isSpaceCh c then
      if cur.isEmpty then splitWSGo [] rest else cur.reverse :: splitWSGo [] rest
    else splitWSGo (c :: cur) rest

/-- Python `" ".join(s.split())`: whitespace-collapse a string. -/
def collapseWS (s : String) : String :=
  strOf (List.intercalate [' '] (splitWSGo [] s.toList))

/-- Match a lower-case ASCII pattern case-insensitively at the head of
the input; return the consumed original characters and the remainder. -/
def matchCIat : List Char → List Char → Option (List Char × List Char)
  | [], l => some ([], l)
  | _ :: _, [] => none
  | p :: ps, c :: cs =>
    if lowerCh c == p then
      (matchCIat ps cs).map (fun pr => (c :: pr.1, pr.2))
    else none

/-- Consume exactly `n` digits (the `\d{n}` atom); return them and the
rest, or fail. -/
def takeDigitsN : Nat → List Char → Option (List Char × List Char)
  | 0, l => some ([], l)
  | _ + 1, [] => none
  | n + 1, c :: rest =>
    if isDigitCh c then (takeDigitsN n rest).map (fun p => (c :: p.1, p.2))
    else none

/-- Greedy `\d{1,2}` whose continuation is a fixed non-digit character,
so trying two digits first and then one is exact Python backtracking. -/
def tryDigits12 (l : List Char) : Option (List Char × List Char) :=
  match takeDigitsN 2 l with
  | some p => some p
  | none => takeDigitsN 1 l

/-- Greedy `\d{2,4}` at the end of the date pattern (no continuation, so
the longest run wins). -/
def tryDigits24 (l : List Char) : Option (List Char × List Char) :=
  match takeDigitsN 4 l with
  | some p => some p
  | none =>
    match takeDigitsN 3 l with
    | some p => some p
    | none => takeDigitsN 2 l

/-- Expect one literal character. -/
def expectCh (c : Char) : List Char → Option (List Char)
  | [] => none
  | x :: rest => if x == c then some rest else none

/-- Greedy `\d{2,4}` followed by a literal `)`, with Python's
backtracking: four digits, then three, then two, each checked against
the closing parenthesis. -/
def tryYearParen (l : List Char) : Option (List Char × List Char) :=
  match takeDigitsN 4 l with
  | some (ds, ')' :: r) => some (ds, r)
  | _ =>
    match takeDigitsN 3 l with
    | some (ds, ')' :: r) => some (ds, r)
    | _ =>
      match takeDigitsN 2 l with
      | some (ds, ')' :: r) => some (ds, r)
      | _ => none

/-- Match `(\d{1,2}/\d{1,2}/\d{2,4})` anchored at the head of the list,
returning the three digit groups (source line 293). -/
def tryMatchDateAt (l : List Char) : Option (List Char × List Char × List Char) :=
  match tryDigits12 l with
  | none => none
  | some (as, r1) =>
    match expectCh '/' r1 with
    | none => none
    | some r2 =>
      match tryDigits12 r2 with
      | none => none
      | some (bs, r3) =>
        match expectCh '/' r3 with
        | none => none
        | some r4 =>
          match tryDigits24 r4 with
          | none => none
          | some (cs, _) => some (as, bs, cs)

/-- Leftmost search for the short-form date token,
`re.search(r"(\d{1,2}/\d{1,2}/\d{2,4})", text)`. -/
def findDate : List Char → Option (List Char × List Char × List Char)
  | [] => none
  | c :: rest =>
    match tryMatchDateAt (c :: rest) with
    | some t => some t
    | none => findDate rest

/-- Match `\((\d{2})/(\d{2})/(\d{2,4})\)` anchored at the head,
returning the `(mm, dd, yy)` digit groups (source line 306). -/
def tryTitleDateAt (l : List Char) : Option (List Char × List Char × List Char) :=
  match expectCh '(' l with
  | none => none
  | some r0 =>
    match takeDigitsN 2 r0 with
    | none => none
    | some (ms, r1) =>
      match expectCh '/' r1 with
      | none => none
      | some r2 =>
        match takeDigitsN 2 r2 with
        | none => none
        | some (ds, r3) =>
          match expectCh '/' r3 with
          | none => none
          | some r4 =>
            match tryYearParen r4 with
            | none => none
            | some (ys, _) => some (ms, ds, ys)

/-- Leftmost search for the parenthesized title date annotation,
`re.search(r"\((\d{2})/(\d{2})/(\d{2,4})\)", title_guess)`. -/
def findTitleDate : List Char → Option (List Char × List Char × List Char)
  | [] => none
  | c :: rest =>
    match tryTitleDateAt (c :: rest) with
    | some t => some t
    | none => findTitleDate rest

/-- Match `(\d{1,2}:\d{2}\s*(AM|PM))` (case-insensitive) anchored at the
head, returning hour value, minute value, and whether the meridiem is
PM (source line 323).  `\s*` is greedy and its continuation `A`/`P` is
never whitespace, so no backtracking arises. -/
def tryTimeAt (l : List Char) : Option (Nat × Nat × Bool) :=
  match tryDigits12 l with
  | none => none
  | some (hs, r1) =>
    match expectCh ':' r1 with
    | none => none
    | some r2 =>
      match takeDigitsN 2 r2 with
      | none => none
      | some (ms, r3) =>
        match r3.dropWhile isSpaceCh with
        | a :: m :: _ =>
          if (a == 'A' || a == 'a' || a == 'P' || a == 'p') && (m == 'M' || m == 'm') then
            some (digitsVal hs, digitsVal ms, (a == 'P' || a == 'p'))
          else none
        | _ => none

/-- Leftmost search for the 12-hour clock token,
`re.search(r"(\d{1,2}:\d{2}\s*(AM|PM))", text, re.I)`. -/
def findTime : List Char → Option (Nat × Nat × Bool)
  | [] => none
  | c :: rest =>
    match tryTimeAt (c :: rest) with
    | some t => some t
    | none => findTime rest

/-- Gregorian leap-year test, as in Python's `calendar`/`datetime`. -/
def isLeap (y : Nat) : Bool := y % 4 == 0 && (y % 100 != 0 || y % 400 == 0)

/-- Days in a month, the validity bound enforced by `datetime`'s
constructor. -/
def daysInMonth (y m : Nat) : Nat :=
  if m == 2 then (if isLeap y then 29 else 28)
  else if m == 4 || m == 6 || m == 9 || m == 11 then 30
  else 31

/-- Range checks of `datetime.datetime(year, month, day)`:
`MINYEAR = 1`, `MAXYEAR = 9999`, month in 1..12, day in
1..days-in-month.  A violation raises `ValueError` in Python. -/
def validDate (y m d : Nat) : Bool :=
  1 ≤ y && y ≤ 9999 && 1 ≤ m && m ≤ 12 && 1 ≤ d && d ≤ daysInMonth y m

/-- Day number of a civil date, counting from 0000-03-01 (Howard
Hinnant's `days_from_civil`, shifted so every valid `datetime` date is a
natural number).  Python `datetime` subtraction and `timedelta`
arithmetic are exact on this timeline. -/
def daysFromCivil (y m d : Nat) : Nat :=
  let y' := if m ≤ 2 then y - 1 else y
  let era := y' / 400
  let yoe := y' % 400
  let mp := if m ≤ 2 then m + 9 else m - 3
  let doy := (153 * mp + 2) / 5 + d - 1
  let doe := yoe * 365 + yoe / 4 - yoe / 100 + doy
  era * 146097 + doe

/-- Civil date of a day number (inverse of `daysFromCivil`), used when
`build_ics` formats datetimes. -/
def civilFromDays (z : Nat) : Nat × Nat × Nat :=
  let era := z / 146097
  let doe := z % 146097
  let yoe := (doe - doe / 1460 + doe / 36524 - doe / 146096) / 365
  let y := yoe + era * 400
  let doy := doe - (365 * yoe + yoe / 4 - yoe / 100)
  let mp := (5 * doy + 2) / 153
  let d := doy - (153 * mp + 2) / 5 + 1
  let m := if mp < 10 then mp + 3 else mp - 9
  (if m ≤ 2 then y + 1 else y, m, d)

/-- A local wall-clock instant as minutes since 0000-03-01 00:00 local.
All datetimes in the script carry the one fixed `LOCAL_TZ` offset, so
wall-clock arithmetic coincides with instant arithmetic. -/
def mkDT (y m d h mi : Nat) : Nat := 1440 * daysFromCivil y m d + (h * 60 + mi)

/-- Two-digit-year window of `dateutil`'s `parserinfo.convertyear`:
assume the current century, then shift a century away if the result is
50 or more years in the future, or more than 50 years in the past, of
the run's current year. -/
def convert2 (nowYear y : Nat) : Nat :=
  let y' := y + nowYear / 100 * 100
  if nowYear + 50 ≤ y' then y' - 100
  else if y' + 50 < nowYear then y' + 100
  else y'

/-- Model of `dtparser.parse(tok, dayfirst=False, yearfirst=False)` on a
token `as/bs/cs` captured by the short-form date regex (month and day
groups of one or two digits, year group of two to four digits), after
`dateutil/parser/_parser.py`:
* a group longer than two digits is labelled a year and sets the
  `century_specified` flag (`_ymd.append`); two year labels raise;
* `resolve_ymd` with `dayfirst=False`, `yearfirst=False`, no month
  name: first group greater than 31 (or year-labelled) puts the year
  first; otherwise first group greater than 12 puts the day first;
  otherwise month first;
* `convertyear` windows a two-digit year around the current year unless
  a century was specified;
* `datetime`'s constructor validates the ranges; any `ValueError` is
  caught by the script and treated as no date. -/
def dtparseMDY (nowYear : Nat) (as bs cs : List Char) : Option (Nat × Nat × Nat) :=
  let a := digitsVal as
  let b := digitsVal bs
  let c := digitsVal cs
  let centSpec := 2 < as.length || 2 < bs.length || 2 < cs.length
  let twoYears :=
    (2 < as.length && 2 < bs.length) || (2 < as.length && 2 < cs.length) ||
      (2 < bs.length && 2 < cs.length)
  if twoYears then none
  else
    let ymd :=
      if 31 < a || 2 < as.length then (a, b, c)
      else if 12 < a then (c, b, a)
      else (c, a, b)
    let y₀ := ymd.1
    let m₀ := ymd.2.1
    let d₀ := ymd.2.2
    let y₁ := if y₀ < 100 && !centSpec then convert2 nowYear y₀ else y₀
    if validDate y₁ m₀ d₀ then some (y₁, m₀, d₀) else none

/-- Hour validity of `dateutil` for a 12-hour token: `_ampm_valid`
requires the hour to lie in 0..12 when an AM/PM flag is present, and
`datetime` requires the minute to lie in 0..59.  The script catches the
`ValueError` of either violation and keeps the event all-day. -/
def timeOk (hh mi : Nat) : Bool := hh ≤ 12 && mi ≤ 59

/-- Meridiem adjustment of `dateutil`'s `_adjust_ampm`. -/
def adjustHour (hh : Nat) (pm : Bool) : Nat :=
  if pm then (if hh < 12 then hh + 12 else hh)
  else (if hh = 12 then 0 else hh)

/-- Digit-slash body of the trailing annotation pattern,
`\d{1,2}/\d{1,2}/\d{2,4}\)`, returning the characters after the
closing parenthesis. -/
def tailAnnotBody (r0 : List Char) : Option (List Char) :=
  match tryDigits12 r0 with
  | none => none
  | some (_, r1) =>
    match expectCh '/' r1 with
    | none => none
    | some r2 =>
      match tryDigits12 r2 with
      | none => none
      | some (_, r3) =>
        match expectCh '/' r3 with
        | none => none
        | some r4 =>
          match tryYearParen r4 with
          | none => none
          | some (_, r5) => some r5

/-- Match `\s*\(\d{1,2}/\d{1,2}/\d{2,4}\)\s*$` anchored at the head of
the (suffix) list: the trailing parenthesized date annotation removed
from the title by `re.sub` (source line 340). -/
def tailAnnotMatch (l : List Char) : Bool :=
  match l.dropWhile isSpaceCh with
  | '(' :: r0 =>
    (match tailAnnotBody r0 with
     | some r5 => r5.all isSpaceCh
     | none => false)
  | _ => false

/-- Leftmost `re.sub` of the trailing annotation: keep characters until
the earliest suffix matching the annotation-to-end pattern. -/
def cutTrailingAnnot : List Char → List Char
  | [] => []
  | c :: rest => if tailAnnotMatch (c :: rest) then [] else c :: cutTrailingAnnot rest

/-- Summary resolution (source line 340):
`re.sub(r"\s*\(\d{1,2}/\d{1,2}/\d{2,4}\)\s*$", "", title_guess).strip()`. -/
def stripTrailingDate (s : String) : String :=
  strOf (trimWS (cutTrailingAnnot s.toList))

/-- Continuation `(?:\s{2,}|$)` of the location pattern, tested at the
remainder: either at least two whitespace characters follow, or the end
of the string (Python `$` also matches just before a final newline). -/
def tailOkLoc : List Char → Bool
  | [] => true
  | [c] => c == '\n'
  | c₁ :: c₂ :: _ => isSpaceCh c₁ && isSpaceCh c₂

/-- Lazy `(.+?)` of the location pattern: take the fewest (at least
one) non-newline characters after which `(?:\s{2,}|$)` matches; return
the captured group. -/
def dotPlusLazy : List Char → Option (List Char)
  | [] => none
  | c :: rest =>
    if c == '\n' then none
    else if tailOkLoc rest then some [c]
    else (dotPlusLazy rest).map (c :: ·)

/-- Greedy `\s*` before the capture group, with Python backtracking:
consume as much whitespace as possible, then on failure of the rest of
the pattern give characters back one at a time. -/
def wsStarThen : List Char → Option (List Char)
  | [] => dotPlusLazy []
  | c :: rest =>
    if isSpaceCh c then
      match wsStarThen rest with
      | some g => some g
      | none => dotPlusLazy (c :: rest)
    else dotPlusLazy (c :: rest)

/-- Pattern of the `Location:` label in lower case. -/
def locLabel : List Char := "location:".toList

/-- Leftmost search for
`re.search(r"Location:\s*(.+?)(?:\s{2,}|$)", text, re.I)`, returning
the captured group (source line 336). -/
def locSearch : List Char → Option (List Char)
  | [] => none
  | c :: rest =>
    match matchCIat locLabel (c :: rest) with
    | some (_, r) =>
      (match wsStarThen r with
       | some g => some g
       | none => locSearch rest)
    | none => locSearch rest

/-- Location resolution (source lines 334-338): the stripped captured
group, or the empty string when the pattern does not match. -/
def locationOf (l : List Char) : List Char :=
  match locSearch l with
  | some g => trimWS g
  | none => []

/-- Normalized event record, the dict appended at source lines 342-350.
`dtstart`/`dtend` are local wall-clock instants in minutes (see the
header comment). -/
structure Event where
  summary : String
  dtstart : Nat
  dtend : Nat
  description : String
  location : String
  url : String
  allDay : Bool
deriving DecidableEq

/-- Date resolution of source lines 293-316, in priority order: the
first short-form token of the flattened text parsed by `dateutil`
(failures caught), else the parenthesized title annotation with
two-digit years mapped to `2000 + yy` — where the `datetime`
constructor call is NOT wrapped in a `try`, so an out-of-range title
date raises (`Except.error`) — else no date (`Except.ok none`,
the event is dropped). -/
def resolveDate (nowYear : Nat) (text title : String) : Except Unit (Option (Nat × Nat × Nat)) :=
  match (findDate text.toList).bind (fun t => dtparseMDY nowYear t.1 t.2.1 t.2.2) with
  | some d => .ok (some d)
  | none =>
    match findTitleDate title.toList with
    | none => .ok none
    | some (ms, ds, ys) =>
      let year₀ := digitsVal ys
      let year := if year₀ < 100 then year₀ + 2000 else year₀
      if validDate year (digitsVal ms) (digitsVal ds) then
        .ok (some (year, digitsVal ms, digitsVal ds))
      else .error ()

/-- Per-detail-page parsing of source lines 289-350: resolve a date
(or drop the event / crash on a bad title date), then look for a
12-hour time token — on success the event is timed with a fixed
two-hour duration, otherwise (including a token that fails `dateutil`
validation, whose `ValueError` is caught) the event is all-day with a
one-day duration — then resolve location, summary and description. -/
def parseDetail (nowYear : Nat) (url text title : String) : Except Unit (Option Event) :=
  match resolveDate nowYear text title with
  | .error e => .error e
  | .ok none => .ok none
  | .ok (some (y, m, d)) =>
    let startMid := mkDT y m d 0 0
    let sde :=
      match findTime text.toList with
      | none => (startMid, startMid + 1440, true)
      | some (hh, mi, pm) =>
        if timeOk hh mi then
          let s := mkDT y m d (adjustHour hh pm) mi
          (s, s + 120, false)
        else (startMid, startMid + 1440, true)
    .ok (some ⟨stripTrailingDate title, sde.1, sde.2.1, strOf (text.toList.take 2000),
               strOf (locationOf text.toList), url, sde.2.2⟩)

/-- Candidate event-detail link produced by the link extractor. -/
structure CandidateLink where
  url : String
  title : String
deriving DecidableEq

/-- Search `re.search(r"ID=(\d+)", url)` (case-sensitive, source line
272): the digits of the first `ID=` that is followed by at least one
digit. -/
def idSearch : List Char → Option (List Char)
  | 'I' :: 'D' :: '=' :: r =>
    let ds := r.takeWhile isDigitCh
    if ds.isEmpty then idSearch ('D' :: '=' :: r) else some ds
  | _ :: rest => idSearch rest
  | [] => none

/-- Title passed to the detail parser (source line 274): the link title,
or a placeholder naming the numeric id when the title is empty. -/
def titleGuess (x : CandidateLink) : String :=
  if x.title = "" then
    strOf ("(untitled) ID=".toList ++
      (match idSearch x.url.toList with
       | some ds => ds
       | none => "unknown".toList))
  else x.title

/-- Orchestrator loop of source lines 270-350 over already-fetched
detail pages: a dropped event (`ok none`) is skipped and processing
continues with the remaining links; an uncaught exception aborts. -/
def processLinks (nowYear : Nat) (fetch : String → String) : List CandidateLink → Except Unit (List Event)
  | [] => .ok []
  | x :: xs =>
    match parseDetail nowYear x.url (fetch x.url) (titleGuess x) with
    | .error e => .error e
    | .ok none => processLinks nowYear fetch xs
    | .ok (some ev) => (processLinks nowYear fetch xs).map (ev :: ·)

/-- Base host used to absolutize relative references (source line 74). -/
def baseHost : List Char := "https://www.troopwebhost.org/".toList

/-- Marker checked case-sensitively by `add_href` (source line 67). -/
def fdMarker : List Char := "FormDetail.aspx".toList

/-- Identifier marker checked case-sensitively by `add_href`. -/
def idMarker : List Char := "ID=".toList

/-- Lower-case pattern of the literal `FormDetail\.aspx\?` prefix. -/
def fdPat : List Char := "formdetail.aspx?".toList

/-- Character class `[^'\"()]` of the unwrapping regex. -/
def fdClass (c : Char) : Bool :=
  !(c == '\'' || c == '"' || c == '(' || c == ')')

/-- Leftmost search for `FormDetail\.aspx\?[^'\"()]+` (case-insensitive,
source line 63): the prefix in its original casing followed by the
greedy non-empty run of allowed characters. -/
def fdSearch : List Char → Option (List Char)
  | [] => none
  | c :: rest =>
    match matchCIat fdPat (c :: rest) with
    | some (pre, r) =>
      let run := r.takeWhile fdClass
      if run.isEmpty then fdSearch rest else some (pre ++ run)
    | none => fdSearch rest

/-- Unwrapping step of `add_href` (source lines 62-65): replace the
href by the `FormDetail.aspx?...` substring when the regex finds one. -/
def unwrapHref (l : List Char) : List Char :=
  match fdSearch l with
  | some m => m
  | none => l

/-- Absolutizing step of `add_href` (source lines 70-74): keep an
href that starts with `http`, otherwise prepend the base host after
stripping leading slashes (`lstrip("/")`). -/
def absolutize (l : List Char) : List Char :=
  if "http".toList.isPrefixOf l then l
  else baseHost ++ l.dropWhile (· == '/')

/-- Acceptance step of `add_href` (source lines 67-77): require the
detail marker and the `ID=` marker (case-sensitively) in the unwrapped
href, then absolutize and collapse the title's whitespace. -/
def addHrefCore (h₁ : List Char) (te : String) : Option CandidateLink :=
  if containsSub fdMarker h₁ && containsSub idMarker h₁ then
    some ⟨strOf (absolutize h₁), collapseWS te⟩
  else none

/-- Embedding of `add_href` (source lines 57-77): skip falsy hrefs,
strip, unwrap, then accept or reject. -/
def addHref (href te : String) : Option CandidateLink :=
  if href = "" then none
  else addHrefCore (unwrapHref (trimWS href.toList)) te

/-- Character class `[^\"'<> ]` of the full-document scan regex. -/
def p3Class (c : Char) : Bool :=
  !(c == '"' || c == '\'' || c == '<' || c == '>' || c == ' ')

/-- Does the run contain `ID=` (case-insensitively) followed by a
digit?  Because `I`, `D`, `=` and digits all belong to the run's
character class, the greedy `[^\"'<> ]*ID=\d+[^\"'<> ]*` matches the
whole run exactly when this holds. -/
def hasIdNum : List Char → Bool
  | a :: b :: c :: d :: rest =>
    ((a == 'I' || a == 'i') && (b == 'D' || b == 'd') && c == '=' && isDigitCh d) ||
      hasIdNum (b :: c :: d :: rest)
  | _ => false

/-- One step of
`re.finditer(r"FormDetail\.aspx\?[^\"'<> ]*ID=\d+[^\"'<> ]*", html, re.I)`
(source line 96), with non-overlapping continuation after each match;
`fuel` bounds the scan by the input length. -/
def pass3Go (fuel : Nat) (l : List Char) : List (List Char) :=
  match fuel, l with
  | 0, _ => []
  | _, [] => []
  | fuel + 1, c :: rest =>
    match matchCIat fdPat (c :: rest) with
    | some (pre, r) =>
      let run := r.takeWhile p3Class
      if hasIdNum run then (pre ++ run) :: pass3Go fuel (r.drop run.length)
      else pass3Go fuel rest
    | none => pass3Go fuel rest

/-- All matches of the full-document regex pass. -/
def pass3 (l : List Char) : List (List Char) := pass3Go l.length l

/-- Input of the link extractor: the parts of the listing page the
three passes consume.  Anchors are `(href, onclick, visible text)`;
clickables (any element with an `onclick` attribute) are
`(onclick, visible text)`. -/
structure ListingPage where
  anchors : List (String × String × String)
  clickables : List (String × String)
  rawHtml : String

/-- The accepted references in discovery order (source lines 79-97):
anchor pass (href then onclick per anchor), generic-click-handler pass,
then the full-document regex pass. -/
def foundList (pg : ListingPage) : List CandidateLink :=
  (pg.anchors.flatMap fun a => (addHref a.1 a.2.2).toList ++ (addHref a.2.1 a.2.2).toList)
    ++ (pg.clickables.flatMap fun e => (addHref e.1 e.2).toList)
    ++ ((pass3 pg.rawHtml.toList).filterMap fun m => addHref (strOf m) "")

/-- Deduplication loop of source lines 99-106: keep the first
occurrence of each exact URL. -/
def dedupGo (seen : List String) : List CandidateLink → List CandidateLink
  | [] => []
  | x :: xs =>
    if seen.contains x.url then dedupGo seen xs
    else x :: dedupGo (x.url :: seen) xs

/-- Embedding of `extract_event_links_from_form_list`
(source lines 44-107). -/
def extractLinks (pg : ListingPage) : List CandidateLink :=
  dedupGo [] (foundList pg)

/-- UTF-8 encoding of one scalar value. -/
def utf8Char (c : Char) : List Nat :=
  let n := c.toNat
  if n < 128 then [n]
  else if n < 2048 then [192 + n / 64, 128 + n % 64]
  else if n < 65536 then [224 + n / 4096, 128 + n / 64 % 64, 128 + n % 64]
  else [240 + n / 262144, 128 + n / 4096 % 64, 128 + n / 64 % 64, 128 + n % 64]

/-- Python `s.encode("utf-8", errors="ignore")`; Lean characters are
scalar values, so nothing is ever dropped. -/
def utf8Bytes (s : String) : List Nat := s.toList.flatMap utf8Char

/-- Truncate to 32 bits. -/
def w32 (n : Nat) : Nat := n % 4294967296

/-- Left rotation of a 32-bit word. -/
def rotl (x k : Nat) : Nat := w32 (x * 2 ^ k) + x / 2 ^ (32 - k) % 2 ^ k

/-- Bitwise complement of a 32-bit word. -/
def notW (x : Nat) : Nat := 4294967295 - x

/-- SHA-1 message padding: `0x80`, zeros to 56 mod 64, then the bit
length as eight big-endian bytes. -/
def sha1Pad (msg : List Nat) : List Nat :=
  let r := (msg.length + 1) % 64
  let k := if r ≤ 56 then 56 - r else 120 - r
  let ml := msg.length * 8
  msg ++ [128] ++ List.replicate k 0 ++
    [ml / 2 ^ 56 % 256, ml / 2 ^ 48 % 256, ml / 2 ^ 40 % 256, ml / 2 ^ 32 % 256,
     ml / 2 ^ 24 % 256, ml / 2 ^ 16 % 256, ml / 2 ^ 8 % 256, ml % 256]

/-- Split a padded message into 64-byte blocks. -/
def chunks64Go : Nat → List Nat → List (List Nat)
  | 0, _ => []
  | n + 1, l => l.take 64 :: chunks64Go n (l.drop 64)

/-- All 64-byte blocks of a padded message. -/
def chunks64 (l : List Nat) : List (List Nat) := chunks64Go (l.length / 64) l

/-- The sixteen 32-bit big-endian words of one block. -/
def blockWords : List Nat → List Nat
  | b0 :: b1 :: b2 :: b3 :: rest =>
    (b0 * 16777216 + b1 * 65536 + b2 * 256 + b3) :: blockWords rest
  | _ => []

/-- One extension word from the last sixteen words (held in reverse). -/
def extendWord (accRev : List Nat) : Nat :=
  rotl (Nat.xor (Nat.xor (accRev.getD 2 0) (accRev.getD 7 0))
        (Nat.xor (accRev.getD 13 0) (accRev.getD 15 0))) 1

/-- Extend the sixteen block words to eighty. -/
def extendWords : Nat → List Nat → List Nat
  | 0, accRev => accRev.reverse
  | n + 1, accRev => extendWords n (extendWord accRev :: accRev)

/-- Round function and constant for round `i` of SHA-1. -/
def sha1FK (i b c d : Nat) : Nat × Nat :=
  if i < 20 then ((b &&& c) ||| (notW b &&& d), 1518500249)
  else if i < 40 then (Nat.xor (Nat.xor b c) d, 1859775393)
  else if i < 60 then ((b &&& c) ||| (b &&& d) ||| (c &&& d), 2400959708)
  else (Nat.xor (Nat.xor b c) d, 3395469782)

/-- Process one 80-word schedule over the running state. -/
def sha1Rounds (ws : List Nat) (st : Nat × Nat × Nat × Nat × Nat) : Nat × Nat × Nat × Nat × Nat :=
  (List.enum ws).foldl
    (fun st p =>
      let a := st.1
      let b := st.2.1
      let c := st.2.2.1
      let d := st.2.2.2.1
      let e := st.2.2.2.2
      let fk := sha1FK p.1 b c d
      let t := w32 (rotl a 5 + fk.1 + e + fk.2 + p.2)
      (t, a, rotl b 30, c, d))
    st

/-- Process one block, adding the result into the chaining state. -/
def sha1Block (st : Nat × Nat × Nat × Nat × Nat) (block : List Nat) : Nat × Nat × Nat × Nat × Nat :=
  let ws := extendWords 64 (blockWords block).reverse
  let r := sha1Rounds ws st
  (w32 (st.1 + r.1), w32 (st.2.1 + r.2.1), w32 (st.2.2.1 + r.2.2.1),
   w32 (st.2.2.2.1 + r.2.2.2.1), w32 (st.2.2.2.2 + r.2.2.2.2))

/-- Hexadecimal digit. -/
def hexDigit (n : Nat) : Char := if n < 10 then Char.ofNat (48 + n) else Char.ofNat (87 + n)

/-- Eight lower-case hex digits of a 32-bit word. -/
def hex8 (n : Nat) : List Char :=
  [hexDigit (n / 2 ^ 28 % 16), hexDigit (n / 2 ^ 24 % 16), hexDigit (n / 2 ^ 20 % 16),
   hexDigit (n / 2 ^ 16 % 16), hexDigit (n / 2 ^ 12 % 16), hexDigit (n / 2 ^ 8 % 16),
   hexDigit (n / 2 ^ 4 % 16), hexDigit (n % 16)]

/-- SHA-1 digest of a byte list, as the 40-character lower-case hex
string of `hashlib.sha1(...).hexdigest()`. -/
def sha1Hex (msg : List Nat) : String :=
  let st := (chunks64 (sha1Pad msg)).foldl sha1Block
    (1732584193, 4023233417, 2562383102, 271733878, 3285377520)
  strOf (hex8 st.1 ++ hex8 st.2.1 ++ hex8 st.2.2.1 ++ hex8 st.2.2.2.1 ++ hex8 st.2.2.2.2)

/-- Unique identifier of one event block (source lines 137-138): the
SHA-1 hex digest of the UTF-8 bytes of `url + "|" + summary` with the
fixed `@troopwebhost` suffix. -/
def uidOf (ev : Event) : String :=
  sha1Hex (utf8Bytes (ev.url ++ "|" ++ ev.summary)) ++ "@troopwebhost"

/-- Zero-padded two-digit decimal field. -/
def pad2 (n : Nat) : String := if n < 10 then "0" ++ toString n else toString n

/-- Zero-padded four-digit decimal field (strftime `%Y`). -/
def pad4 (n : Nat) : String :=
  if n < 10 then "000" ++ toString n
  else if n < 100 then "00" ++ toString n
  else if n < 1000 then "0" ++ toString n
  else toString n

/-- `dt.astimezone(timezone.utc).strftime("%Y%m%dT%H%M%SZ")` for a
local instant: `LOCAL_TZ` is the fixed UTC-5 offset, so UTC wall time
is the local wall time plus 300 minutes; seconds are always zero. -/
def fmtDtUtc (mins : Nat) : String :=
  let u := mins + 300
  let ymd := civilFromDays (u / 1440)
  pad4 ymd.1 ++ pad2 ymd.2.1 ++ pad2 ymd.2.2 ++ "T" ++
    pad2 (u % 1440 / 60) ++ pad2 (u % 1440 % 60) ++ "00Z"

/-- `dt.date().strftime("%Y%m%d")`: the local calendar date. -/
def fmtDate (mins : Nat) : String :=
  let ymd := civilFromDays (mins / 1440)
  pad4 ymd.1 ++ pad2 ymd.2.1 ++ pad2 ymd.2.2

/-- Python `s.replace("\n", " ")`. -/
def nlToSpace (s : String) : String :=
  strOf (s.toList.map fun c => if c == '\n' then ' ' else c)

/-- Python `s.strip()` on strings. -/
def stripStr (s : String) : String := strOf (trimWS s.toList)

/-- Escape embedded newlines for the DESCRIPTION field,
`.replace("\n", "\\n")`. -/
def escNl (s : String) : String :=
  strOf (s.toList.flatMap fun c => if c == '\n' then ['\\', 'n'] else [c])

/-- DESCRIPTION value (source lines 161-166): the stripped description
and the stripped URL when non-empty, joined by a literal `\n\n`, with
real newlines escaped. -/
def mkDesc (ev : Event) : String :=
  let parts := (if ev.description ≠ "" then [stripStr ev.description] else []) ++
    (if ev.url ≠ "" then [stripStr ev.url] else [])
  escNl (String.intercalate "\\n\\n" parts)

/-- Lines of one VEVENT block (source lines 140-170). -/
def eventLines (ev : Event) (nowUtc : String) : List String :=
  ["BEGIN:VEVENT", "UID:" ++ uidOf ev, "DTSTAMP:" ++ nowUtc]
    ++ (if ev.allDay then
          ["DTSTART;VALUE=DATE:" ++ fmtDate ev.dtstart, "DTEND;VALUE=DATE:" ++ fmtDate ev.dtend]
        else
          ["DTSTART:" ++ fmtDtUtc ev.dtstart, "DTEND:" ++ fmtDtUtc ev.dtend])
    ++ ["SUMMARY:" ++ stripStr (nlToSpace ev.summary)]
    ++ (if stripStr (nlToSpace ev.location) = "" then []
        else ["LOCATION:" ++ stripStr (nlToSpace ev.location)])
    ++ (if mkDesc ev = "" then [] else ["DESCRIPTION:" ++ mkDesc ev])
    ++ ["END:VEVENT"]

/-- Embedding of `build_ics` (source lines 111-173): fixed header
lines, one event block per input event in order, the footer, and CRLF
after every line including the last.  `nowUtc` stands for the
`datetime.now(timezone.utc)` timestamp string computed once per run. -/
def buildIcs (events : List Event) (nowUtc : String) : String :=
  let lines := ["BEGIN:VCALENDAR", "VERSION:2.0", "PRODID:-//TroopCalendarSync//EN",
                "CALSCALE:GREGORIAN", "METHOD:PUBLISH"]
    ++ events.flatMap (fun ev => eventLines ev nowUtc)
    ++ ["END:VCALENDAR"]
  String.intercalate "\r\n" lines ++ "\r\n"

deriving instance DecidableEq for Except

/-- A whitespace character that may occur in whitespace-collapsed text:
only the plain space. -/
def wsOkCh (c : Char) : Bool := !isSpaceCh c || c == ' '

/-- Suffix-closed part of the collapsed-text invariant: whitespace
characters are plain spaces, no two consecutive spaces, no trailing
space. -/
def tame : List Char → Bool
  | [] => true
  | [c] => wsOkCh c && !(c == ' ')
  | c₁ :: c₂ :: rest => wsOkCh c₁ && !(c₁ == ' ' && c₂ == ' ') && tame (c₂ :: rest)

/-- Shape invariant of `" ".join(soup.get_text("\n", strip=True).split())`:
the flattened detail text is whitespace-collapsed (single plain spaces
only, none leading or trailing). -/
def collapsedOk (l : List Char) : Bool := !(l.head? == some ' ') && tame l

/-- The text following the first case-insensitive `Location:` label, if
any: the reading of the specification sentence, to be compared with the
regex capture `locationOf`. -/
def afterLabelCI : List Char → Option (List Char)
  | [] => none
  | c :: rest =>
    match matchCIat locLabel (c :: rest) with
    | some (_, r) => some r
    | none => afterLabelCI rest

theorem takeDigitsN_length (n : Nat) : ∀ (l : List Char) (p : List Char × List Char),
    takeDigitsN n l = some p → p.1.length = n := by
  induction n with
  | zero =>
    intro l p h
    unfold takeDigitsN at h
    simp only [Option.some.injEq] at h
    rw [← h]
    rfl
  | succ k ih =>
    intro l p h
    cases l with
    | nil => simp [takeDigitsN] at h
    | cons c rest =>
      unfold takeDigitsN at h
      split at h
      · cases hk : takeDigitsN k rest with
        | none => rw [hk] at h; simp at h
        | some q =>
          rw [hk] at h
          simp only [Option.map_some', Option.some.injEq] at h
          rw [← h]
          simp [ih rest q hk]
      · simp at h

theorem tryDigits12_length (l : List Char) (p : List Char × List Char)
    (h : tryDigits12 l = some p) : p.1.length ≤ 2 := by
  unfold tryDigits12 at h
  cases h2 : takeDigitsN 2 l with
  | some q => rw [h2] at h; cases h; exact Nat.le_of_eq (takeDigitsN_length 2 l _ h2)
  | none =>
    rw [h2] at h
    have := takeDigitsN_length 1 l p h
    omega

theorem tryMatchDateAt_shape (l : List Char) (t : List Char × List Char × List Char)
    (h : tryMatchDateAt l = some t) : t.1.length ≤ 2 ∧ t.2.1.length ≤ 2 := by
  unfold tryMatchDateAt at h
  split at h
  · cases h
  · rename_i as r1 h1
    split at h
    · cases h
    · rename_i r2 _
      split at h
      · cases h
      · rename_i bs r3 h3
        split at h
        · cases h
        · split at h
          · cases h
          · cases h
            exact ⟨tryDigits12_length l (as, r1) h1, tryDigits12_length r2 (bs, r3) h3⟩

theorem findDate_token (l : List Char) (t : List Char × List Char × List Char)
    (h : findDate l = some t) : ∃ l', tryMatchDateAt l' = some t := by
  induction l with
  | nil => cases h
  | cons c rest ih =>
    unfold findDate at h
    split at h
    · rename_i h1
      cases h
      exact ⟨c :: rest, h1⟩
    · exact ih h

theorem dtparseMDY_monthFirst (nowYear : Nat) (as bs cs : List Char) (y m d : Nat)
    (hlen : as.length ≤ 2) (hlen2 : bs.length ≤ 2) (hm : digitsVal as ≤ 12)
    (h : dtparseMDY nowYear as bs cs = some (y, m, d)) :
    m = digitsVal as ∧ d = digitsVal bs := by
  have h1 : decide (31 < digitsVal as) = false := decide_eq_false (by omega)
  have h2 : decide (2 < as.length) = false := decide_eq_false (by omega)
  have h4 : decide (2 < bs.length) = false := decide_eq_false (by omega)
  unfold dtparseMDY at h
  simp only [h1, h2, h4, Bool.false_and, Bool.and_false, Bool.false_or, Bool.or_false,
    Bool.false_eq_true, if_false] at h
  split at h
  · rename_i h12
    exact absurd h12 (by omega)
  · split at h
    all_goals split at h
    all_goals cases h
    all_goals exact ⟨rfl, rfl⟩

theorem adjustHour_le (hh : Nat) (pm : Bool) (h12 : hh ≤ 12) : adjustHour hh pm ≤ 23 := by
  unfold adjustHour
  split <;> split <;> omega

theorem adjustHour_bound (hh mi : Nat) (pm : Bool) (h12 : hh ≤ 12) (h59 : mi ≤ 59) :
    adjustHour hh pm * 60 + mi < 1440 := by
  have := adjustHour_le hh pm h12
  omega

theorem mkDT_day (y m d h mi : Nat) (hb : h * 60 + mi < 1440) :
    mkDT y m d h mi / 1440 = daysFromCivil y m d := by
  unfold mkDT
  rw [Nat.mul_add_div (by norm_num), Nat.div_eq_of_lt hb]
  omega

theorem timeOk_bounds (hh mi : Nat) (h : timeOk hh mi = true) : hh ≤ 12 ∧ mi ≤ 59 := by
  unfold timeOk at h
  simp only [Bool.and_eq_true, decide_eq_true_eq] at h
  exact h

/-- C2 (amended): whenever the FIRST short-form date token found in the
flattened text parses successfully under the month-first interpretation
(first group at most 12), the resolved start date equals that token
parsed month-first — month from the first group, day from the second —
regardless of any parenthesized date annotation in the title hint: the
text takes priority over the title. -/
theorem c2_first_token_priority (nowYear : Nat) (url text title : String)
    (as bs cs : List Char) (y m d : Nat)
    (hf : findDate text.toList = some (as, bs, cs))
    (hp : dtparseMDY nowYear as bs cs = some (y, m, d))
    (hm : digitsVal as ≤ 12) :
    m = digitsVal as ∧ d = digitsVal bs ∧
      ∃ ev : Event, parseDetail nowYear url text title = .ok (some ev) ∧
        ev.dtstart / 1440 = daysFromCivil y m d := by
  obtain ⟨l', hl'⟩ := findDate_token _ _ hf
  obtain ⟨ha, hb⟩ := tryMatchDateAt_shape _ _ hl'
  obtain ⟨hm1, hd1⟩ := dtparseMDY_monthFirst nowYear as bs cs y m d ha hb hm hp
  have hr : resolveDate nowYear text title = .ok (some (y, m, d)) := by
    unfold resolveDate
    rw [hf]
    simp only [Option.some_bind]
    rw [hp]
  refine ⟨hm1, hd1, ?_⟩
  cases hT : findTime text.toList with
  | none =>
    have hval : parseDetail nowYear url text title =
        .ok (some ⟨stripTrailingDate title, mkDT y m d 0 0, mkDT y m d 0 0 + 1440,
          strOf (text.toList.take 2000), strOf (locationOf text.toList), url, true⟩) := by
      unfold parseDetail
      rw [hr, hT]
    exact ⟨_, hval, mkDT_day y m d 0 0 (by omega)⟩
  | some t =>
    obtain ⟨hh, mi, pm⟩ := t
    cases hok : timeOk hh mi with
    | true =>
      obtain ⟨h12, h59⟩ := timeOk_bounds hh mi hok
      have hval : parseDetail nowYear url text title =
          .ok (some ⟨stripTrailingDate title, mkDT y m d (adjustHour hh pm) mi,
            mkDT y m d (adjustHour hh pm) mi + 120,
            strOf (text.toList.take 2000), strOf (locationOf text.toList), url, false⟩) := by
        unfold parseDetail
        rw [hr, hT]
        simp only [hok, if_true]
      exact ⟨_, hval, mkDT_day y m d (adjustHour hh pm) mi (adjustHour_bound hh mi pm h12 h59)⟩
    | false =>
      have hval : parseDetail nowYear url text title =
          .ok (some ⟨stripTrailingDate title, mkDT y m d 0 0, mkDT y m d 0 0 + 1440,
            strOf (text.toList.take 2000), strOf (locationOf text.toList), url, true⟩) := by
        unfold parseDetail
        rw [hr, hT]
        simp only [hok, Bool.false_eq_true, if_false]
      exact ⟨_, hval, mkDT_day y m d 0 0 (by omega)⟩

/-- Witness for C2: the text `"Meeting 3/5/2026 at 7:00 PM"` resolves
to March 5 2026 even though the title hint carries `(01/02/03)`. -/
theorem c2_first_token_priority_wit :
    3 = digitsVal ['3'] ∧ 5 = digitsVal ['5'] ∧
      ∃ ev : Event, parseDetail 2026 "u" "Meeting 3/5/2026 at 7:00 PM" "X (01/02/03)" =
          .ok (some ev) ∧ ev.dtstart / 1440 = daysFromCivil 2026 3 5 :=
  c2_first_token_priority 2026 "u" "Meeting 3/5/2026 at 7:00 PM" "X (01/02/03)"
    ['3'] ['5'] ['2', '0', '2', '6'] 2026 3 5 (by decide) (by decide) (by decide)

/-- Counterexample to C2 as stated: the text
`"99/99/9999 Meeting 3/5/2026"` contains the short-form token
`3/5/2026` that parses successfully month-first, yet the resolved start
date is February 14 2026, taken from the title hint `"X (02/14/26)"`,
because only the first regex match (`99/99/9999`, which fails to parse)
is ever tried. -/
theorem c2_counterexample :
    tryMatchDateAt ("99/99/9999 Meeting 3/5/2026".toList.drop 19) =
        some (['3'], ['5'], ['2', '0', '2', '6']) ∧
      dtparseMDY 2026 ['3'] ['5'] ['2', '0', '2', '6'] = some (2026, 3, 5) ∧
      parseDetail 2026 "u" "99/99/9999 Meeting 3/5/2026" "X (02/14/26)" =
        .ok (some ⟨"X", mkDT 2026 2 14 0 0, mkDT 2026 2 15 0 0,
          "99/99/9999 Meeting 3/5/2026", "", "u", true⟩) ∧
      mkDT 2026 2 14 0 0 / 1440 ≠ daysFromCivil 2026 3 5 := by decide

/-- Counterexample to C3 as stated: the text
`"3/5/2026 99:99 PM 7:00 PM"` contains the token `7:00 PM` that parses
successfully, yet the event is emitted all-day, because the leftmost
regex match `99:99 PM` fails validation and the search is not
retried. -/
theorem c3_counterexample :
    tryTimeAt ("3/5/2026 99:99 PM 7:00 PM".toList.drop 18) = some (7, 0, true) ∧
      timeOk 7 0 = true ∧
      parseDetail 2026 "u" "3/5/2026 99:99 PM 7:00 PM" "T" =
        .ok (some ⟨"T", mkDT 2026 3 5 0 0, mkDT 2026 3 5 0 0 + 1440,
          "3/5/2026 99:99 PM 7:00 PM", "", "u", true⟩) := by decide

theorem dedupGo_sublist (seen : List String) (l : List CandidateLink) :
    (dedupGo seen l).Sublist l := by
  induction l generalizing seen with
  | nil => simp [dedupGo]
  | cons x xs ih =>
    unfold dedupGo
    split
    · exact (ih seen).trans (List.sublist_cons_self x xs)
    · exact (ih (x.url :: seen)).cons₂ x

theorem dedupGo_not_seen (seen : List String) (l : List CandidateLink) :
    ∀ c ∈ dedupGo seen l, c.url ∉ seen := by
  induction l generalizing seen with
  | nil => intro c hc; cases hc
  | cons x xs ih =>
    intro c hc
    unfold dedupGo at hc
    split at hc
    · exact ih seen c hc
    · rename_i hns
      rcases List.mem_cons.mp hc with h | h
      · subst h
        intro hmem
        exact hns (by simpa using hmem)
      · intro hmem
        have := ih (x.url :: seen) c h
        exact this (List.mem_cons_of_mem _ hmem)

theorem dedupGo_nodup (seen : List String) (l : List CandidateLink) :
    ((dedupGo seen l).map (fun c => c.url)).Nodup := by
  induction l generalizing seen with
  | nil => simp [dedupGo]
  | cons x xs ih =>
    unfold dedupGo
    split
    · exact ih seen
    · simp only [List.map_cons, List.nodup_cons]
      refine ⟨?_, ih (x.url :: seen)⟩
      intro hmem
      obtain ⟨c, hc, he⟩ := List.mem_map.mp hmem
      exact (dedupGo_not_seen _ _ c hc) (he ▸ List.mem_cons_self _ _)

theorem dedupGo_filter (l : List CandidateLink) : ∀ (seen : List String) (u : String),
    u ∉ seen → (∃ c ∈ l, c.url = u) →
    (dedupGo seen l).filter (fun c => c.url == u) = ((l.find? (fun c => c.url == u)).toList) := by
  induction l with
  | nil =>
    intro seen u _ hex
    obtain ⟨c, hc, _⟩ := hex
    cases hc
  | cons x xs ih =>
    intro seen u hu hex
    unfold dedupGo
    split
    · rename_i hseen
      have hxmem : x.url ∈ seen := by simpa using hseen
      have hxu : ¬(x.url = u) := fun he => hu (he ▸ hxmem)
      have hpx : ¬((fun c : CandidateLink => c.url == u) x = true) := by simpa using hxu
      rw [List.find?_cons_of_neg _ (by simpa using hxu)]
      obtain ⟨c, hc, he⟩ := hex
      rcases List.mem_cons.mp hc with h | h
      · exact absurd (h ▸ he) hxu
      · exact ih seen u hu ⟨c, h, he⟩
    · rename_i hseen
      by_cases hxu : x.url = u
      · rw [List.filter_cons_of_pos (by simpa using hxu),
          List.find?_cons_of_pos _ (by simpa using hxu)]
        have hnil : (dedupGo (x.url :: seen) xs).filter (fun c => c.url == u) = [] := by
          rw [List.filter_eq_nil_iff]
          intro c hc
          have := dedupGo_not_seen (x.url :: seen) xs c hc
          simp only [List.mem_cons, not_or] at this
          simpa using (hxu ▸ this.1)
        rw [hnil]
        rfl
      · rw [List.filter_cons_of_neg (by simpa using hxu),
          List.find?_cons_of_neg _ (by simpa using hxu)]
        obtain ⟨c, hc, he⟩ := hex
        rcases List.mem_cons.mp hc with h | h
        · exact absurd (h ▸ he) hxu
        · refine ih (x.url :: seen) u ?_ ⟨c, h, he⟩
          simp only [List.mem_cons, not_or]
          exact ⟨fun he2 => hxu he2.symm, hu⟩

/-- C5: for every listing page, the URLs of the returned links are
pairwise distinct under exact string comparison; the output is a
subsequence of the pass-ordered discovery list (first-seen insertion
order across the three passes); and every URL discovered at least once
is represented by exactly one returned link, namely its first
occurrence (which carries the first occurrence's title). -/
theorem c5_dedup_first_wins (pg : ListingPage) :
    ((extractLinks pg).map (fun c => c.url)).Nodup ∧
      (extractLinks pg).Sublist (foundList pg) ∧
      ∀ u : String, (∃ c ∈ foundList pg, c.url = u) →
        (extractLinks pg).filter (fun c => c.url == u) =
          ((foundList pg).find? (fun c => c.url == u)).toList := by
  refine ⟨dedupGo_nodup [] _, dedupGo_sublist [] _, ?_⟩
  intro u hex
  exact dedupGo_filter _ [] u (by simp) hex

/-- Witness for C5: the spec scenario of one anchor and one
click-handler expressing the same `Form_ID=182&ID=55` detail URL
produces exactly one link, titled from the anchor seen first. -/
theorem c5_dedup_first_wins_wit :
    ((extractLinks ⟨[("FormDetail.aspx?Form_ID=182&ID=55", "", "Campout")],
        [("LinkTo('FormDetail.aspx?Form_ID=182&ID=55','')", "Row")], ""⟩).map
      (fun c => c.url)).Nodup ∧
      (extractLinks ⟨[("FormDetail.aspx?Form_ID=182&ID=55", "", "Campout")],
          [("LinkTo('FormDetail.aspx?Form_ID=182&ID=55','')", "Row")], ""⟩).filter
          (fun c => c.url == "https://www.troopwebhost.org/FormDetail.aspx?Form_ID=182&ID=55") =
        ((foundList ⟨[("FormDetail.aspx?Form_ID=182&ID=55", "", "Campout")],
            [("LinkTo('FormDetail.aspx?Form_ID=182&ID=55','')", "Row")], ""⟩).find?
          (fun c => c.url == "https://www.troopwebhost.org/FormDetail.aspx?Form_ID=182&ID=55")).toList := by
  have h := c5_dedup_first_wins ⟨[("FormDetail.aspx?Form_ID=182&ID=55", "", "Campout")],
    [("LinkTo('FormDetail.aspx?Form_ID=182&ID=55','')", "Row")], ""⟩
  exact ⟨h.1, h.2.2 "https://www.troopwebhost.org/FormDetail.aspx?Form_ID=182&ID=55"
    ⟨⟨"https://www.troopwebhost.org/FormDetail.aspx?Form_ID=182&ID=55", "Campout"⟩,
      by decide, rfl⟩⟩

theorem containsSub_append_left (sub t s : List Char)
    (h : containsSub sub t = true) : containsSub sub (s ++ t) = true := by
  induction s with
  | nil => exact h
  | cons c s' ih =>
    rw [List.cons_append]
    unfold containsSub
    simp only [Bool.or_eq_true]
    exact Or.inr ih

theorem containsSub_dropSlash (sub l : List Char) (hne : sub ≠ []) (hns : '/' ∉ sub)
    (h : containsSub sub l = true) : containsSub sub (l.dropWhile (· == '/')) = true := by
  induction l with
  | nil =>
    unfold containsSub at h
    simp only [List.isEmpty_iff] at h
    exact absurd h hne
  | cons c rest ih =>
    by_cases hc : c = '/'
    · subst hc
      rw [List.dropWhile_cons_of_pos (by simp)]
      unfold containsSub at h
      simp only [Bool.or_eq_true] at h
      rcases h with h | h
      · exfalso
        cases sub with
        | nil => exact hne rfl
        | cons sc srest =>
          simp only [List.isPrefixOf, Bool.and_eq_true, beq_iff_eq] at h
          refine hns ?_
          rw [← h.1]
          exact List.mem_cons_self _ _
      · exact ih h
    · rw [List.dropWhile_cons_of_neg (by simpa using hc)]
      exact h

theorem addHref_props (href te : String) (c : CandidateLink) (h : addHref href te = some c) :
    containsSub fdMarker c.url.toList = true ∧ containsSub idMarker c.url.toList = true ∧
      "http".toList.isPrefixOf c.url.toList = true := by
  unfold addHref at h
  split at h
  · cases h
  · unfold addHrefCore at h
    split at h
    · rename_i hcond
      simp only [Bool.and_eq_true] at hcond
      cases h
      show containsSub fdMarker (absolutize (unwrapHref (trimWS href.toList))) = true ∧
        containsSub idMarker (absolutize (unwrapHref (trimWS href.toList))) = true ∧
        "http".toList.isPrefixOf (absolutize (unwrapHref (trimWS href.toList))) = true
      unfold absolutize
      split
      · rename_i hpre
        exact ⟨hcond.1, hcond.2, hpre⟩
      · refine ⟨containsSub_append_left _ _ _
          (containsSub_dropSlash _ _ (by decide) (by decide) hcond.1),
          containsSub_append_left _ _ _
            (containsSub_dropSlash _ _ (by decide) (by decide) hcond.2), ?_⟩
        rw [List.isPrefixOf_iff_prefix]
        exact List.IsPrefix.trans (by decide) (List.prefix_append _ _)
    · cases h

theorem foundList_mem (pg : ListingPage) (c : CandidateLink) (h : c ∈ foundList pg) :
    ∃ s t, addHref s t = some c := by
  unfold foundList at h
  rcases List.mem_append.mp h with h | h
  · rcases List.mem_append.mp h with h | h
    · obtain ⟨a, _, hc⟩ := List.mem_flatMap.mp h
      rcases List.mem_append.mp hc with hc | hc
      · exact ⟨a.1, a.2.2, by simpa using hc⟩
      · exact ⟨a.2.1, a.2.2, by simpa using hc⟩
    · obtain ⟨e, _, hc⟩ := List.mem_flatMap.mp h
      exact ⟨e.1, e.2, by simpa using hc⟩
  · obtain ⟨m, _, hc⟩ := List.mem_filterMap.mp h
    exact ⟨strOf m, "", hc⟩

/-- C6 (amended): every link returned by `extractLinks` has a URL that
begins with `http` (passed through verbatim or absolutized against the
fixed base host) and contains both the `FormDetail.aspx` marker and the
substring `ID=`; a reference lacking either substring is rejected in
every pass.  (A numeric value after `ID=` is only required by the
full-document regex pass, not by the anchor and click-handler
passes.) -/
theorem c6_url_invariant (pg : ListingPage) (c : CandidateLink) (h : c ∈ extractLinks pg) :
    containsSub fdMarker c.url.toList = true ∧ containsSub idMarker c.url.toList = true ∧
      "http".toList.isPrefixOf c.url.toList = true := by
  have hm : c ∈ foundList pg := (dedupGo_sublist [] (foundList pg)).subset h
  obtain ⟨s, t, hs⟩ := foundList_mem pg c hm
  exact addHref_props s t c hs

/-- Witness for C6: the URL built from a plain
`FormDetail.aspx?Form_ID=182&ID=55` anchor satisfies all three
invariants. -/
theorem c6_url_invariant_wit :
    containsSub fdMarker
        "https://www.troopwebhost.org/FormDetail.aspx?Form_ID=182&ID=55".toList = true ∧
      containsSub idMarker
        "https://www.troopwebhost.org/FormDetail.aspx?Form_ID=182&ID=55".toList = true ∧
      "http".toList.isPrefixOf
        "https://www.troopwebhost.org/FormDetail.aspx?Form_ID=182&ID=55".toList = true :=
  c6_url_invariant ⟨[("FormDetail.aspx?Form_ID=182&ID=55", "", "Campout")], [], ""⟩
    ⟨"https://www.troopwebhost.org/FormDetail.aspx?Form_ID=182&ID=55", "Campout"⟩ (by decide)

/-- Counterexample to C6 as stated: an anchor with
`href="FormDetail.aspx?ID=abc"` is accepted by every check of
`add_href` — the returned URL has no `ID=` parameter with a numeric
value (no occurrence of `ID=` followed by a digit). -/
theorem c6_counterexample :
    extractLinks ⟨[("FormDetail.aspx?ID=abc", "", "t")], [], ""⟩ =
        [⟨"https://www.troopwebhost.org/FormDetail.aspx?ID=abc", "t"⟩] ∧
      idSearch "https://www.troopwebhost.org/FormDetail.aspx?ID=abc".toList = none := by decide

theorem tame_tail (c : Char) (rest : List Char) (h : tame (c :: rest) = true) :
    tame rest = true := by
  cases rest with
  | nil => rfl
  | cons c₂ r₂ =>
    unfold tame at h
    simp only [Bool.and_eq_true] at h
    exact h.2

theorem tame_head_ws (c : Char) (rest : List Char) (h : tame (c :: rest) = true) :
    wsOkCh c = true := by
  cases rest with
  | nil =>
    unfold tame at h
    simp only [Bool.and_eq_true] at h
    exact h.1
  | cons c₂ r₂ =>
    unfold tame at h
    simp only [Bool.and_eq_true] at h
    exact h.1.1

theorem tame_head_not_nl (c : Char) (rest : List Char) (h : tame (c :: rest) = true) :
    (c == '\n') = false := by
  have hw := tame_head_ws c rest h
  by_contra hne
  simp only [Bool.not_eq_false, beq_iff_eq] at hne
  subst hne
  simp [wsOkCh, isSpaceCh] at hw

theorem tame_drop (n : Nat) : ∀ l : List Char, tame l = true → tame (l.drop n) = true := by
  induction n with
  | zero => intro l h; exact h
  | succ k ih =>
    intro l h
    cases l with
    | nil => exact h
    | cons c rest =>
      rw [List.drop_succ_cons]
      exact ih rest (tame_tail c rest h)

theorem tame_space (rest : List Char) (h : tame (' ' :: rest) = true) :
    ∃ c₂ r₂, rest = c₂ :: r₂ ∧ ¬c₂ = ' ' := by
  cases rest with
  | nil => simp [tame, wsOkCh, isSpaceCh] at h
  | cons c₂ r₂ =>
    refine ⟨c₂, r₂, rfl, ?_⟩
    intro he
    subst he
    unfold tame at h
    simp at h

theorem tailOkLoc_tame (l : List Char) (h : tame l = true) : tailOkLoc l = l.isEmpty := by
  cases l with
  | nil => rfl
  | cons c rest =>
    cases rest with
    | nil =>
      show (c == '\n') = false
      exact tame_head_not_nl c [] h
    | cons c₂ r₂ =>
      show (isSpaceCh c && isSpaceCh c₂) = false
      by_cases h1 : isSpaceCh c = true
      · have hw := tame_head_ws c (c₂ :: r₂) h
        have hcsp : c = ' ' := by
          unfold wsOkCh at hw
          simp only [Bool.or_eq_true, Bool.not_eq_true', beq_iff_eq] at hw
          rcases hw with hw | hw
          · rw [h1] at hw; cases hw
          · exact hw
        subst hcsp
        obtain ⟨c₃, r₃, he, hne⟩ := tame_space (c₂ :: r₂) h
        injection he with he1 he2
        subst he1
        by_cases h2 : isSpaceCh c₂ = true
        · have hw₂ := tame_head_ws c₂ r₂ (tame_tail _ _ h)
          unfold wsOkCh at hw₂
          simp only [Bool.or_eq_true, Bool.not_eq_true', beq_iff_eq] at hw₂
          rcases hw₂ with hw₂ | hw₂
          · rw [h2] at hw₂; cases hw₂
          · exact absurd hw₂ hne
        · simp only [Bool.not_eq_true] at h2
          rw [h2, Bool.and_false]
      · simp only [Bool.not_eq_true] at h1
        rw [h1, Bool.false_and]

theorem dotPlusLazy_tame (l : List Char) (h : tame l = true) (hne : l ≠ []) :
    dotPlusLazy l = some l := by
  induction l with
  | nil => exact absurd rfl hne
  | cons c rest ih =>
    unfold dotPlusLazy
    rw [tame_head_not_nl c rest h]
    rw [tailOkLoc_tame rest (tame_tail c rest h)]
    cases rest with
    | nil => rfl
    | cons c₂ r₂ =>
      show (dotPlusLazy (c₂ :: r₂)).map (c :: ·) = some (c :: c₂ :: r₂)
      rw [ih (tame_tail c _ h) (by simp)]
      rfl

theorem wsStarThen_nonspace (l : List Char) (h : tame l = true)
    (hne : l ≠ []) (hns : l.head? ≠ some ' ') : wsStarThen l = some l := by
  cases l with
  | nil => exact absurd rfl hne
  | cons c rest =>
    unfold wsStarThen
    have hsp : isSpaceCh c = false := by
      have hw := tame_head_ws c rest h
      unfold wsOkCh at hw
      simp only [Bool.or_eq_true, Bool.not_eq_true', beq_iff_eq] at hw
      rcases hw with hw | hw
      · exact hw
      · exact absurd (by simp [hw]) hns
    rw [hsp]
    exact dotPlusLazy_tame _ h hne

theorem wsStarThen_space (r : List Char) (h : tame (' ' :: r) = true) :
    wsStarThen (' ' :: r) = some r := by
  obtain ⟨c₂, r₂, he, hne⟩ := tame_space r h
  subst he
  unfold wsStarThen
  rw [show isSpaceCh ' ' = true from rfl]
  rw [wsStarThen_nonspace (c₂ :: r₂) (tame_tail _ _ h) (by simp) (by simpa using hne)]
  rfl

theorem matchCIat_drop (p : List Char) : ∀ (l pre r : List Char),
    matchCIat p l = some (pre, r) → r = l.drop p.length ∧ p.length ≤ l.length := by
  induction p with
  | nil =>
    intro l pre r h
    unfold matchCIat at h
    simp only [Option.some.injEq, Prod.mk.injEq] at h
    exact ⟨h.2.symm, by simp⟩
  | cons pc ps ih =>
    intro l pre r h
    cases l with
    | nil => cases h
    | cons c rest =>
      unfold matchCIat at h
      split at h
      · cases hm : matchCIat ps rest with
        | none => rw [hm] at h; cases h
        | some q =>
          rw [hm] at h
          simp only [Option.map_some', Option.some.injEq, Prod.mk.injEq] at h
          obtain ⟨h1, h2⟩ := h
          subst h1
          subst h2
          obtain ⟨hd, hl⟩ := ih rest q.1 q.2 (by rw [hm])
          simp only [List.length_cons, List.drop_succ_cons]
          exact ⟨hd, by omega⟩
      · cases h

theorem locSearch_short (l : List Char) (h : l.length < 9) : locSearch l = none := by
  induction l with
  | nil => rfl
  | cons c rest ih =>
    unfold locSearch
    cases hm : matchCIat locLabel (c :: rest) with
    | some q =>
      obtain ⟨_, hl⟩ := matchCIat_drop locLabel (c :: rest) q.1 q.2 (by rw [hm])
      simp only [List.length_cons] at h hl
      have : locLabel.length = 9 := rfl
      omega
    | none =>
      exact ih (by simp only [List.length_cons] at h; omega)

theorem trimWS_cons_space (x : List Char) : trimWS (' ' :: x) = trimWS x := by
  unfold trimWS
  rw [List.dropWhile_cons_of_pos (by decide)]

theorem locSearch_tame (l : List Char) (h : tame l = true) :
    (afterLabelCI l = none → locSearch l = none) ∧
      ∀ r, afterLabelCI l = some r →
        (r = [] ∧ locSearch l = none) ∨
          (∃ g, locSearch l = some g ∧ trimWS g = trimWS r) := by
  induction l with
  | nil => exact ⟨fun _ => rfl, fun r hr => by cases hr⟩
  | cons c rest ih =>
    cases hm : matchCIat locLabel (c :: rest) with
    | none =>
      have ha : afterLabelCI (c :: rest) = afterLabelCI rest := by
        conv_lhs => unfold afterLabelCI
        rw [hm]
      have hs : locSearch (c :: rest) = locSearch rest := by
        conv_lhs => unfold locSearch
        rw [hm]
      rw [ha, hs]
      exact ih (tame_tail c rest h)
    | some q =>
      obtain ⟨pre, r⟩ := q
      obtain ⟨hdrop, hlen⟩ := matchCIat_drop locLabel (c :: rest) pre r hm
      have htr : tame r = true := by
        rw [hdrop]
        exact tame_drop _ _ h
      have ha : afterLabelCI (c :: rest) = some r := by
        conv_lhs => unfold afterLabelCI
        rw [hm]
      constructor
      · intro hcontra
        rw [ha] at hcontra
        cases hcontra
      intro r' hr'
      rw [ha] at hr'
      cases hr'
      cases hre : r with
      | nil =>
        left
        refine ⟨rfl, ?_⟩
        unfold locSearch
        rw [hm, hre]
        show (match wsStarThen [] with
          | some g => some g
          | none => locSearch rest) = none
        rw [show wsStarThen [] = none from rfl]
        have : rest.length < 9 := by
          subst hre
          have h9 : locLabel.length = 9 := rfl
          rw [h9] at hdrop
          have : (c :: rest).length = 9 := by
            have hd2 : List.drop 9 (c :: rest) = [] := hdrop.symm
            have := List.drop_eq_nil_iff.mp hd2
            simp only [List.length_cons] at this hlen ⊢
            rw [h9] at hlen
            omega
          simp only [List.length_cons] at this
          omega
        exact locSearch_short rest this
      | cons rc rr =>
        right
        by_cases hsp : rc = ' '
        · subst hsp
          subst hre
          refine ⟨rr, ?_, (trimWS_cons_space rr).symm⟩
          unfold locSearch
          rw [hm]
          show (match wsStarThen (' ' :: rr) with
            | some g => some g
            | none => locSearch rest) = some rr
          rw [wsStarThen_space rr htr]
        · subst hre
          refine ⟨rc :: rr, ?_, rfl⟩
          unfold locSearch
          rw [hm]
          show (match wsStarThen (rc :: rr) with
            | some g => some g
            | none => locSearch rest) = some (rc :: rr)
          rw [wsStarThen_nonspace (rc :: rr) htr (by simp) (by simpa using hsp)]

theorem parseDetail_location (nowYear : Nat) (url text title : String) (ev : Event)
    (h : parseDetail nowYear url text title = .ok (some ev)) :
    ev.location = strOf (locationOf text.toList) := by
  unfold parseDetail at h
  split at h
  · exact absurd h (by simp)
  · exact absurd h (by simp)
  · split at h
    · simp only [Except.ok.injEq, Option.some.injEq] at h
      subst h
      rfl
    · split at h
      · simp only [Except.ok.injEq, Option.some.injEq] at h
        subst h
        rfl
      · simp only [Except.ok.injEq, Option.some.injEq] at h
        subst h
        rfl

/-- C9: for every whitespace-collapsed flattened text, the emitted
event's location equals the `Location:` regex capture; when the text
has no case-insensitive `Location:` label the capture is empty, and
when it has one the capture is the trimmed text following the first
label — which, the text being collapsed, runs to the end of the string
(the `\s{2,}` alternative of the pattern cannot fire). -/
theorem c9_location_resolution (nowYear : Nat) (url text title : String) (ev : Event)
    (hc : collapsedOk text.toList = true) :
    (parseDetail nowYear url text title = .ok (some ev) →
       ev.location = strOf (locationOf text.toList)) ∧
      (afterLabelCI text.toList = none → locationOf text.toList = []) ∧
      ∀ r, afterLabelCI text.toList = some r → locationOf text.toList = trimWS r := by
  have htame : tame text.toList = true := by
    unfold collapsedOk at hc
    simp only [Bool.and_eq_true] at hc
    exact hc.2
  obtain ⟨hnone, hsome⟩ := locSearch_tame text.toList htame
  refine ⟨parseDetail_location nowYear url text title ev, ?_, ?_⟩
  · intro hn
    unfold locationOf
    rw [hnone hn]
  · intro r hr
    unfold locationOf
    rcases hsome r hr with ⟨hre, hls⟩ | ⟨g, hls, htr⟩
    · rw [hls, hre]
      rfl
    · rw [hls]
      exact htr

/-- Witness for C9: `"Troop Meeting Location: Scout Hall on 3/5/2026"`
resolves the location `"Scout Hall on 3/5/2026"`. -/
theorem c9_location_resolution_wit :
    collapsedOk "Troop Meeting Location: Scout Hall on 3/5/2026".toList = true ∧
      ((⟨"T", mkDT 2026 3 5 0 0, mkDT 2026 3 5 0 0 + 1440,
          "Troop Meeting Location: Scout Hall on 3/5/2026",
          "Scout Hall on 3/5/2026", "u", true⟩ : Event).location =
        strOf (locationOf "Troop Meeting Location: Scout Hall on 3/5/2026".toList)) ∧
      locationOf "Troop Meeting Location: Scout Hall on 3/5/2026".toList =
        trimWS " Scout Hall on 3/5/2026".toList := by
  have h := c9_location_resolution 2026 "u" "Troop Meeting Location: Scout Hall on 3/5/2026" "T"
    ⟨"T", mkDT 2026 3 5 0 0, mkDT 2026 3 5 0 0 + 1440,
      "Troop Meeting Location: Scout Hall on 3/5/2026",
      "Scout Hall on 3/5/2026", "u", true⟩ (by decide)
  exact ⟨by decide, h.1 (by decide), h.2.2 " Scout Hall on 3/5/2026".toList (by decide)⟩

theorem parseDetail_end_shape (nowYear : Nat) (url text title : String) (ev : Event)
    (h : parseDetail nowYear url text title = .ok (some ev)) :
    ev.dtend = ev.dtstart + 120 ∨ ev.dtend = ev.dtstart + 1440 := by
  unfold parseDetail at h
  split at h
  · exact absurd h (by simp)
  · exact absurd h (by simp)
  · split at h
    · simp only [Except.ok.injEq, Option.some.injEq] at h
      subst h
      right
      rfl
    · split at h
      · simp only [Except.ok.injEq, Option.some.injEq] at h
        subst h
        left
        rfl
      · simp only [Except.ok.injEq, Option.some.injEq] at h
        subst h
        right
        rfl

/-- C7: every event produced by `parseDetail` (not dropped) has a
present `startAt` and satisfies `endAt ≥ startAt`, in both the all-day
and the timed branch, including when the time token is combined with a
date recovered from the title hint. -/
theorem c7_end_after_start (nowYear : Nat) (url text title : String) (ev : Event)
    (h : parseDetail nowYear url text title = .ok (some ev)) :
    ev.dtstart ≤ ev.dtend := by
  rcases parseDetail_end_shape nowYear url text title ev h with h2 | h2 <;> omega

/-- Witness for C7: a timed event whose date comes from the title hint
annotation `(01/02/26)` and whose time comes from the text. -/
theorem c7_end_after_start_wit :
    parseDetail 2026 "u" "Meeting at 7:00 PM" "T (01/02/26)" =
        .ok (some ⟨"T", mkDT 2026 1 2 19 0, mkDT 2026 1 2 19 0 + 120,
          "Meeting at 7:00 PM", "", "u", false⟩) ∧
      mkDT 2026 1 2 19 0 ≤ mkDT 2026 1 2 19 0 + 120 :=
  ⟨by decide, c7_end_after_start 2026 "u" "Meeting at 7:00 PM" "T (01/02/26)"
    ⟨"T", mkDT 2026 1 2 19 0, mkDT 2026 1 2 19 0 + 120,
      "Meeting at 7:00 PM", "", "u", false⟩ (by decide)⟩

/-- C10: serializing the empty event sequence returns exactly the fixed
header (VCALENDAR begin, version 2.0, product identifier, Gregorian
scale, publish method) followed immediately by the footer, with CRLF
terminating every line including the final one, and no event block. -/
theorem c10_empty_calendar (nowUtc : String) :
    buildIcs [] nowUtc =
      "BEGIN:VCALENDAR\r\nVERSION:2.0\r\nPRODID:-//TroopCalendarSync//EN\r\nCALSCALE:GREGORIAN\r\nMETHOD:PUBLISH\r\nEND:VCALENDAR\r\n" := rfl

/-- C4: the serialized unique identifier of every event block equals
the hex-encoded SHA-1 of the UTF-8 bytes of `sourceUrl + "|" + summary`
with the fixed `@troopwebhost` suffix appended, and is identical across
serializations at any two generation timestamps. -/
theorem c4_uid_stable (ev : Event) (nowUtc nowUtc' : String) :
    (eventLines ev nowUtc)[1]? =
        some ("UID:" ++ sha1Hex (utf8Bytes (ev.url ++ "|" ++ ev.summary)) ++ "@troopwebhost") ∧
      (eventLines ev nowUtc)[1]? = (eventLines ev nowUtc')[1]? := ⟨rfl, rfl⟩

/-- C8: the scenario — title hint `"Campout (02/14/26)"`, no date token
in the detail text, no time token — yields the parenthesized annotation
as fallback with the two-digit year read as `2000 + 26`:
`summary = "Campout"` (trailing annotation stripped and trimmed),
`startAt` = February 14 2026 at local midnight, `allDay = true`, and
`endAt` = February 15 2026 at local midnight = `startAt + 1` day. -/
theorem c8_campout_scenario (nowYear : Nat) :
    parseDetail nowYear "u" "Please join us for a fun weekend" "Campout (02/14/26)" =
        .ok (some ⟨"Campout", mkDT 2026 2 14 0 0, mkDT 2026 2 15 0 0,
          "Please join us for a fun weekend", "", "u", true⟩) ∧
      mkDT 2026 2 15 0 0 = mkDT 2026 2 14 0 0 + 1440 := ⟨rfl, by decide⟩

/-- C1: for every detail text and title hint containing no date token of
either recognized form (no `M/D/Y` short-form token in the flattened
text, no parenthesized `(MM/DD/YY[YY])` annotation in the title hint),
`parseDetail` yields dropped (`ok none`): no event is emitted, no
placeholder date is invented, and the orchestrator loop continues with
the remaining links unchanged. -/
theorem c1_drop_property (nowYear : Nat) (url text title : String)
    (hT : findDate text.toList = none) (hH : findTitleDate title.toList = none) :
    parseDetail nowYear url text title = .ok none ∧
      ∀ (fetch : String → String) (rest : List CandidateLink) (x : CandidateLink),
        fetch x.url = text → titleGuess x = title →
        processLinks nowYear fetch (x :: rest) = processLinks nowYear fetch rest := by
  have h0 : resolveDate nowYear text title = .ok none := by
    unfold resolveDate
    rw [hT, hH]
    rfl
  have h1 : ∀ u : String, parseDetail nowYear u text title = .ok none := by
    intro u
    unfold parseDetail
    rw [h0]
  refine ⟨h1 url, ?_⟩
  intro fetch rest x hf hg
  show (match parseDetail nowYear x.url (fetch x.url) (titleGuess x) with
    | .error e => .error e
    | .ok none => processLinks nowYear fetch rest
    | .ok (some ev) => (processLinks nowYear fetch rest).map (ev :: ·)) =
      processLinks nowYear fetch rest
  rw [hf, hg, h1 x.url]

/-- Witness for C1: the tokenless text `"hello world"` and title
`"Pizza Party"` are dropped and skipped. -/
theorem c1_drop_property_wit :
    parseDetail 2026 "u" "hello world" "Pizza Party" = .ok none ∧
      processLinks 2026 (fun _ => "hello world") [⟨"u", "Pizza Party"⟩] =
        processLinks 2026 (fun _ => "hello world") [] := by
  have h := c1_drop_property 2026 "u" "hello world" "Pizza Party" (by decide) (by decide)
  exact ⟨h.1, h.2 (fun _ => "hello world") [] ⟨"u", "Pizza Party"⟩ rfl (by decide)⟩

/-- C3 (amended): for every event whose date is resolved, if the FIRST
12-hour clock token found in the flattened text parses successfully
(hour at most 12, minute at most 59) then `allDay = false` and
`endAt = startAt + 2` hours exactly; if no time token is found then
`allDay = true`, `startAt` is the resolved calendar date at local
midnight, and `endAt = startAt + 1` day exactly. -/
theorem c3_time_defaulting (nowYear : Nat) (url text title : String) (y m d : Nat) (ev : Event)
    (hr : resolveDate nowYear text title = .ok (some (y, m, d)))
    (hp : parseDetail nowYear url text title = .ok (some ev)) :
    (findTime text.toList = none →
       ev.allDay = true ∧ ev.dtstart = mkDT y m d 0 0 ∧ ev.dtend = ev.dtstart + 1440) ∧
    (∀ hh mi pm, findTime text.toList = some (hh, mi, pm) → timeOk hh mi = true →
       ev.allDay = false ∧ ev.dtend = ev.dtstart + 120) := by
  unfold parseDetail at hp
  rw [hr] at hp
  constructor
  · intro hT
    rw [hT] at hp
    simp only [Except.ok.injEq, Option.some.injEq] at hp
    subst hp
    exact ⟨rfl, rfl, rfl⟩
  · intro hh mi pm hT hok
    rw [hT] at hp
    simp only [hok] at hp
    simp only [Except.ok.injEq, Option.some.injEq] at hp
    subst hp
    exact ⟨rfl, rfl⟩

/-- Witness for C3: the spec scenario `"Meeting 3/5/2026 at 7:00 PM"`
yields a timed event ending two hours after it starts. -/
theorem c3_time_defaulting_wit :
    ((⟨"T", mkDT 2026 3 5 19 0, mkDT 2026 3 5 19 0 + 120,
        "Meeting 3/5/2026 at 7:00 PM", "", "u", false⟩ : Event).allDay = false) ∧
      ((⟨"T", mkDT 2026 3 5 19 0, mkDT 2026 3 5 19 0 + 120,
        "Meeting 3/5/2026 at 7:00 PM", "", "u", false⟩ : Event).dtend =
        (⟨"T", mkDT 2026 3 5 19 0, mkDT 2026 3 5 19 0 + 120,
          "Meeting 3/5/2026 at 7:00 PM", "", "u", false⟩ : Event).dtstart + 120) := by
  have h := c3_time_defaulting 2026 "u" "Meeting 3/5/2026 at 7:00 PM" "T" 2026 3 5
    ⟨"T", mkDT 2026 3 5 19 0, mkDT 2026 3 5 19 0 + 120,
      "Meeting 3/5/2026 at 7:00 PM", "", "u", false⟩ (by decide) (by decide)
  exact h.2 7 0 true (by decide) (by decide)
